import Mathlib

/-!
Verification development for the ipycc creative-coding drawing layer.

The development shallowly embeds the algorithmic core of the library:
the 3x3 affine transform composition of `Sketch` (`src/ipycc/sketch.py`),
the Bezier evaluation helpers, the arc-to-Bezier decomposition, the
custom-shape vertex protocol (both the `ipycc` and the `jupy5` variant),
the turtle motion model of `src/ipycc/turtle.py` (`_goto`, `_rotate`,
`circle`, `colormode`), and the `run_sketch` animation loop.

Python floats are embedded as real numbers (`ℝ`); where exact rational
arithmetic suffices (`colormode`, the animation clock) the embedding uses
`ℚ` so that concrete runs are decidable.  Machine-level floating point
rounding is not modelled; the one place the source rounds deliberately
(`round(x, 7)` in `_acute_arc_to_bezier`) is embedded as exact rounding to
7 decimal digits.
-/

namespace Ipycc

set_option maxRecDepth 4000

/-! ## 3x3 transform matrices (`Sketch`, `src/ipycc/sketch.py`)

`Sketch._matrix` is a 3x3 float matrix.  Every transform method builds a
3x3 matrix `m` and sets `self._matrix = m @ self._matrix`.
-/

/-- The type of the recorded `Sketch._matrix`: a 3x3 real matrix. -/
abbrev Mat3 := Matrix (Fin 3) (Fin 3) ℝ

/-- `Sketch.apply_matrix(a, b, c, d, e, f)`:
`m = ((a, c, e), (b, d, f), (0, 0, 1))`, then `m @ M`. -/
def applyMatrix (a b c d e f : ℝ) (M : Mat3) : Mat3 :=
  !![a, c, e; b, d, f; 0, 0, 1] * M

/-- `Sketch.rotate(angle)`: left-multiplies the rotation matrix
`((cos a, -sin a, 0), (sin a, cos a, 0), (0, 0, 1))`. -/
noncomputable def rotateMatrix (angle : ℝ) (M : Mat3) : Mat3 :=
  !![Real.cos angle, -Real.sin angle, 0;
     Real.sin angle, Real.cos angle, 0;
     0, 0, 1] * M

/-- `Sketch.scale(x)` (single-argument form): uniform scale matrix. -/
def scaleUniform (x : ℝ) (M : Mat3) : Mat3 :=
  !![x, 0, 0; 0, x, 0; 0, 0, 1] * M

/-- `Sketch.scale(x, y)` (two-argument form). -/
def scaleXY (x y : ℝ) (M : Mat3) : Mat3 :=
  !![x, 0, 0; 0, y, 0; 0, 0, 1] * M

/-- `Sketch.shear_x(angle)`: delegates to `apply_matrix(1, 0, tan(angle), 1, 0, 0)`. -/
noncomputable def shearXMatrix (angle : ℝ) (M : Mat3) : Mat3 :=
  applyMatrix 1 0 (Real.tan angle) 1 0 0 M

/-- `Sketch.shear_y(angle)`: delegates to `apply_matrix(1, tan(angle), 0, 1, 0, 0)`. -/
noncomputable def shearYMatrix (angle : ℝ) (M : Mat3) : Mat3 :=
  applyMatrix 1 (Real.tan angle) 0 1 0 0 M

/-- `Sketch.translate(x, y)`: the source builds
`m = ((0, 0, x), (0, 0, y), (0, 0, 1))` (note the zero diagonal) and
left-multiplies it. -/
def translateMatrix (x y : ℝ) (M : Mat3) : Mat3 :=
  !![0, 0, x; 0, 0, y; 0, 0, 1] * M

/-- `Sketch.reset_matrix()`: sets the recorded matrix to `np.eye(3)`. -/
def resetMatrix (_M : Mat3) : Mat3 := 1

/-- `Sketch._init_transformation()`: the initial recorded matrix of a fresh
sketch is `diag(pixel_density, pixel_density, 1)` (default density 2). -/
def initMatrix (density : ℝ) : Mat3 :=
  !![density, 0, 0; 0, density, 0; 0, 0, 1]

/-- A transform operation of the `Sketch` API, as issued by client code. -/
inductive TransformOp : Type
  | applyMatrix (a b c d e f : ℝ)
  | rotate (angle : ℝ)
  | scaleUniform (x : ℝ)
  | scaleXY (x y : ℝ)
  | shearX (angle : ℝ)
  | shearY (angle : ℝ)
  | translate (x y : ℝ)

/-- The effect of one transform method on the recorded matrix, exactly as in
the source. -/
noncomputable def TransformOp.apply : TransformOp → Mat3 → Mat3
  | .applyMatrix a b c d e f, M => Ipycc.applyMatrix a b c d e f M
  | .rotate angle, M => rotateMatrix angle M
  | .scaleUniform x, M => Ipycc.scaleUniform x M
  | .scaleXY x y, M => Ipycc.scaleXY x y M
  | .shearX angle, M => shearXMatrix angle M
  | .shearY angle, M => shearYMatrix angle M
  | .translate x y, M => translateMatrix x y M

/-- The 3x3 matrix the source code constructs for each operation. -/
noncomputable def TransformOp.codeMatrix : TransformOp → Mat3
  | .applyMatrix a b c d e f => !![a, c, e; b, d, f; 0, 0, 1]
  | .rotate angle => !![Real.cos angle, -Real.sin angle, 0;
                        Real.sin angle, Real.cos angle, 0; 0, 0, 1]
  | .scaleUniform x => !![x, 0, 0; 0, x, 0; 0, 0, 1]
  | .scaleXY x y => !![x, 0, 0; 0, y, 0; 0, 0, 1]
  | .shearX angle => !![1, Real.tan angle, 0; 0, 1, 0; 0, 0, 1]
  | .shearY angle => !![1, 0, 0; Real.tan angle, 1, 0; 0, 0, 1]
  | .translate x y => !![0, 0, x; 0, 0, y; 0, 0, 1]

/-- The standard homogeneous operation matrix for each operation, following
the spec's words (a second, spec-side definition for comparison with the
code: in particular translation is `((1,0,x),(0,1,y),(0,0,1))`). -/
noncomputable def TransformOp.stdMatrix : TransformOp → Mat3
  | .applyMatrix a b c d e f => !![a, c, e; b, d, f; 0, 0, 1]
  | .rotate angle => !![Real.cos angle, -Real.sin angle, 0;
                        Real.sin angle, Real.cos angle, 0; 0, 0, 1]
  | .scaleUniform x => !![x, 0, 0; 0, x, 0; 0, 0, 1]
  | .scaleXY x y => !![x, 0, 0; 0, y, 0; 0, 0, 1]
  | .shearX angle => !![1, Real.tan angle, 0; 0, 1, 0; 0, 0, 1]
  | .shearY angle => !![1, 0, 0; Real.tan angle, 1, 0; 0, 0, 1]
  | .translate x y => !![1, 0, x; 0, 1, y; 0, 0, 1]

/-- Applying a recorded matrix to a point `(px, py)` in homogeneous
coordinates (third coordinate 1), returning the transformed `(x, y)`. -/
def mulPoint (M : Mat3) (px py : ℝ) : ℝ × ℝ :=
  (M 0 0 * px + M 0 1 * py + M 0 2, M 1 0 * px + M 1 1 * py + M 1 2)

/-! ## Bezier evaluation (`Sketch.bezier_point`, `Sketch.bezier_tangent`)

Identical in `src/ipycc/sketch.py` and `src/jupy5/sketch.py`. -/

/-- `Sketch.bezier_point(a, b, c, d, t)`. -/
def bezierPoint (a b c d t : ℝ) : ℝ :=
  (1 - t) ^ 3 * a + 3 * (1 - t) ^ 2 * t * b + 3 * (1 - t) * t ^ 2 * c + t ^ 3 * d

/-- `Sketch.bezier_tangent(a, b, c, d, t)`. -/
def bezierTangent (a b c d t : ℝ) : ℝ :=
  3 * d * t ^ 2 - 3 * c * t ^ 2 + 6 * c * (1 - t) * t - 6 * b * (1 - t) * t
    + 3 * b * (1 - t) ^ 2 - 3 * a * (1 - t) ^ 2

/-! ## `colormode` (`src/ipycc/turtle.py`)

`colormode(cmode)` with no argument returns the screen's stored mode; with
an argument it assigns the mode only when the argument compares equal to
`1.0` or to `255`, and silently does nothing otherwise (no exception is
raised: the function is total).  Numeric comparison is value equality, so
the model uses `ℚ`. -/

/-- The setter branch of `colormode`: the new stored mode given the current
one and the argument. -/
def colormodeSet (current : ℚ) (cmode : ℚ) : ℚ :=
  if cmode = 1 then cmode else if cmode = 255 then cmode else current

/-- The getter branch of `colormode` (argument `None`): returns the stored
mode unchanged. -/
def colormodeGet (current : ℚ) : ℚ := current

/-! ## Arc decomposition (`Sketch._acute_arc_to_bezier`, `Sketch.arc`)

The drawing surface collaborator (`ipycanvas.Canvas`) is modelled as the
list of path commands the sketch issues to it. -/

/-- A path/drawing command issued to the canvas collaborator. -/
inductive CanvasOp : Type
  | beginPath
  | moveTo (x y : ℝ)
  | bezierCurveTo (x1 y1 x2 y2 x3 y3 : ℝ)
  | lineTo (x y : ℝ)
  | closePath
  | fill
  | stroke
  | fillPolygon (pts : List (ℝ × ℝ))
  | strokePolygon (pts : List (ℝ × ℝ))

/-- Python's `round(x, 7)`, embedded as exact rounding to 7 decimal digits.
(Python rounds half-to-even; the two differ only when `x * 10^7` is an
exact half-integer, which never occurs at the inputs verified here.) -/
noncomputable def round7 (x : ℝ) : ℝ := (round (x * 10 ^ 7) : ℤ) / 10 ^ 7

/-- The waypoint record returned by `Sketch._acute_arc_to_bezier`. -/
structure ArcBezier : Type where
  ax : ℝ
  ay : ℝ
  bx : ℝ
  by' : ℝ
  cx : ℝ
  cy : ℝ
  dx : ℝ
  dy : ℝ

/-- `Sketch._acute_arc_to_bezier(start, size)`: one cubic Bezier segment
approximating the unit-circle arc from `start` spanning `size`. -/
noncomputable def acuteArcToBezier (start size : ℝ) : ArcBezier :=
  let alpha := size * 0.5
  let cosAlpha := Real.cos alpha
  let sinAlpha := Real.sin alpha
  let cotAlpha := 1 / Real.tan alpha
  let phi := start + alpha
  let cosPhi := Real.cos phi
  let sinPhi := Real.sin phi
  let lam := (4.0 - cosAlpha) / 3
  let mu := sinAlpha + (cosAlpha - lam) * cotAlpha
  { ax := round7 (Real.cos start)
    ay := round7 (Real.sin start)
    bx := round7 (lam * cosPhi + mu * sinPhi)
    by' := round7 (lam * sinPhi - mu * cosPhi)
    cx := round7 (lam * cosPhi - mu * sinPhi)
    cy := round7 (lam * sinPhi + mu * cosPhi)
    dx := round7 (Real.cos (start + size))
    dy := round7 (Real.sin (start + size)) }

/-- The `epsilon = 0.00001` constant of `Sketch.arc`. -/
noncomputable def epsilon : ℝ := 1 / 100000

/-- The `while stop - start >= epsilon` loop of `Sketch.arc`: the list of
`(start, size)` sub-arcs, where each `size = min(stop - start, HALF_PI)`. -/
noncomputable def arcSegments (start stop : ℝ) : List (ℝ × ℝ) :=
  if h : epsilon ≤ stop - start then
    let size := min (stop - start) (Real.pi / 2)
    (start, size) :: arcSegments (start + size) stop
  else []
  termination_by (⌈(stop - start) / epsilon⌉).toNat
  decreasing_by
    have heps : (0 : ℝ) < epsilon := by
      show (0 : ℝ) < 1 / 100000
      norm_num
    have hhalf : epsilon ≤ Real.pi / 2 := by
      show (1 : ℝ) / 100000 ≤ Real.pi / 2
      have h3 := Real.pi_gt_three
      linarith
    have hsize : epsilon ≤ min (stop - start) (Real.pi / 2) := le_min h hhalf
    have hsub : stop - (start + min (stop - start) (Real.pi / 2))
        ≤ stop - start - epsilon := by linarith
    have hnum : (stop - (start + min (stop - start) (Real.pi / 2))) / epsilon
        ≤ (stop - start) / epsilon - 1 := by
      have := (div_le_div_iff_of_pos_right heps).mpr hsub
      calc (stop - (start + min (stop - start) (Real.pi / 2))) / epsilon
          ≤ (stop - start - epsilon) / epsilon := this
        _ = (stop - start) / epsilon - 1 := by
            rw [sub_div, div_self (ne_of_gt heps)]
    have hceil : ⌈(stop - (start + min (stop - start) (Real.pi / 2))) / epsilon⌉
        ≤ ⌈(stop - start) / epsilon⌉ - 1 := by
      calc ⌈(stop - (start + min (stop - start) (Real.pi / 2))) / epsilon⌉
          ≤ ⌈(stop - start) / epsilon - 1⌉ := Int.ceil_mono hnum
        _ = ⌈(stop - start) / epsilon⌉ - 1 := Int.ceil_sub_one _
    have hpos : 0 < ⌈(stop - start) / epsilon⌉ := by
      rw [Int.lt_ceil]
      push_cast
      exact div_pos (lt_of_lt_of_le heps h) heps
    have hlt : ⌈(stop - (start + min (stop - start) (Real.pi / 2))) / epsilon⌉
        < ⌈(stop - start) / epsilon⌉ := by omega
    exact (Int.toNat_lt_toNat hpos).mpr hlt

/-- `Sketch.arc(x, y, w, h, start, stop)`: the command list issued to the
canvas. -/
noncomputable def arc (x y w h start stop : ℝ) : List CanvasOp :=
  let rx := w * 0.5
  let ry := h * 0.5
  let curves := (arcSegments start stop).map (fun p => acuteArcToBezier p.1 p.2)
  [CanvasOp.beginPath] ++
    (match curves with
      | [] => []
      | c :: _ => [CanvasOp.moveTo (x + c.ax * rx) (y + c.ay * ry)]) ++
    curves.map (fun c =>
      CanvasOp.bezierCurveTo (x + c.bx * rx) (y + c.by' * ry)
        (x + c.cx * rx) (y + c.cy * ry) (x + c.dx * rx) (y + c.dy * ry)) ++
    [CanvasOp.lineTo x y, CanvasOp.closePath, CanvasOp.fill, CanvasOp.stroke]

/-- The chaining property of a sub-arc list: each sub-arc starts where the
previous one ended. -/
def chainedFrom : ℝ → List (ℝ × ℝ) → Prop
  | _, [] => True
  | s, p :: rest => p.1 = s ∧ chainedFrom (s + p.2) rest

/-! ## Shape recorder (`begin_shape` / `vertex` / `end_shape`)

The vertex buffer `self._vertices` is a list of points; each method
returns the new buffer together with the commands issued to the canvas. -/

/-- `Sketch.begin_shape()`: clears the vertex buffer (`ipycc` and `jupy5`
agree), drawing nothing. -/
def beginShape (_buf : List (ℝ × ℝ)) : List (ℝ × ℝ) × List CanvasOp :=
  ([], [])

/-- `Sketch.vertex(x, y)`: appends the point, drawing nothing. -/
def vertexShape (buf : List (ℝ × ℝ)) (x y : ℝ) : List (ℝ × ℝ) × List CanvasOp :=
  (buf ++ [(x, y)], [])

/-- `Sketch.end_shape()` in `src/ipycc/sketch.py`: if the buffer is
non-empty, fill and stroke the polygon through the recorded vertices and
clear the buffer; otherwise do nothing. -/
def endShape (buf : List (ℝ × ℝ)) : List (ℝ × ℝ) × List CanvasOp :=
  if buf.length > 0 then ([], [CanvasOp.fillPolygon buf, CanvasOp.strokePolygon buf])
  else (buf, [])

/-- `Sketch.end_shape()` in `src/jupy5/sketch.py`: same draw, but the
buffer is not cleared. -/
def endShapeJupy5 (buf : List (ℝ × ℝ)) : List (ℝ × ℝ) × List CanvasOp :=
  if buf.length > 0 then (buf, [CanvasOp.fillPolygon buf, CanvasOp.strokePolygon buf])
  else (buf, [])

/-! ## Turtle motion model (`src/ipycc/turtle.py`)

The turtle state flattens `Turtle` fields with the fields of its screen
that the motion code reads (`_tracing`, `xscale`, `yscale`, `width`,
`height`).  The orientation `_orient` is a 2D vector; `Vec2D.rotate(angle)`
rotates it counterclockwise by `math.radians(angle)`, i.e. it always
interprets its argument as degrees.  Angle-unit configuration
(`_fullcircle`, `_degreesPerAU`, `_angleOffset`, `_angleOrient`) is part of
the state; in this code base `_angleOffset` is always 0 and `_angleOrient`
always 1 (`_setDegreesPerAU` and `reset` are the only writers). -/

/-- `Vec2D.rotate(angle)`: counterclockwise rotation of the vector by
`math.radians(angle)` (the argument is taken to be in degrees). -/
noncomputable def rotateVec (v : ℝ × ℝ) (angle : ℝ) : ℝ × ℝ :=
  let a := angle * Real.pi / 180
  (v.1 * Real.cos a - v.2 * Real.sin a, v.2 * Real.cos a + v.1 * Real.sin a)

/-- The turtle state (fields of `Turtle` plus the screen fields its motion
code reads). -/
structure TurtleState : Type where
  position : ℝ × ℝ
  orient : ℝ × ℝ
  speed : ℕ
  drawing : Bool
  fillpath : Option (List (ℝ × ℝ))
  fullcircle : ℝ
  degreesPerAU : ℝ
  angleOffset : ℝ
  angleOrient : ℝ
  tracing : ℤ
  xscale : ℝ
  yscale : ℝ
  width : ℝ
  height : ℝ

/-- The state of a freshly reset turtle on the default 400x400 screen:
position at the origin, heading along the positive x-axis, speed 3, pen
down, no fill path, degree units, tracing on. -/
noncomputable def initTurtle : TurtleState where
  position := (0, 0)
  orient := (1, 0)
  speed := 3
  drawing := true
  fillpath := none
  fullcircle := 360
  degreesPerAU := 1
  angleOffset := 0
  angleOrient := 1
  tracing := 1
  xscale := 1
  yscale := 1
  width := 400
  height := 400

/-- `Turtle._setDegreesPerAU(fullcircle)`: sets the angle-unit
configuration. -/
noncomputable def setDegreesPerAU (st : TurtleState) (fullcircle : ℝ) : TurtleState :=
  { st with fullcircle := fullcircle, degreesPerAU := 360 / fullcircle, angleOffset := 0 }

/-- `Turtle.degrees(fullcircle)` (default 360). -/
noncomputable def degreesMode (st : TurtleState) (fullcircle : ℝ) : TurtleState :=
  setDegreesPerAU st fullcircle

/-- `Turtle.radians()`: sets the unit configuration to `math.tau`. -/
noncomputable def radiansMode (st : TurtleState) : TurtleState :=
  setDegreesPerAU st (2 * Real.pi)

/-- `Turtle._rotate(angle)`: rotates the orientation vector by the raw
argument (which `Vec2D.rotate` interprets as degrees) with no angle-unit
conversion.  (`_update` redraws the screen but changes no turtle state.) -/
noncomputable def rotateTurtle (st : TurtleState) (angle : ℝ) : TurtleState :=
  { st with orient := rotateVec st.orient angle }

/-- `Turtle.left(angle)`: `self._rotate(angle)`. -/
noncomputable def leftTurtle (st : TurtleState) (angle : ℝ) : TurtleState :=
  rotateTurtle st angle

/-- `Turtle.right(angle)`: `self._rotate(-angle)`. -/
noncomputable def rightTurtle (st : TurtleState) (angle : ℝ) : TurtleState :=
  rotateTurtle st (-angle)

/-- Modelled from the spec (for comparison with the code): a `left` in
which the angle argument is first converted from the turtle's configured
angle unit into degrees via `degreesPerAU` and the orientation sign before
the direction vector is rotated. -/
noncomputable def leftConverted (st : TurtleState) (angle : ℝ) : TurtleState :=
  { st with orient := rotateVec st.orient (angle * st.angleOrient * st.degreesPerAU) }

/-- `Turtle._to_screen_coords(v)`. -/
noncomputable def toScreen (st : TurtleState) (v : ℝ × ℝ) : ℝ × ℝ :=
  (st.width * 0.5 + v.1, st.height * 0.5 + v.2)

/-- An observable drawing event of turtle motion: a pen line segment on the
turtle's pen layer, or a screen redraw (triggered by `_update` when
tracing is 1, which also sleeps for the screen delay). -/
inductive TurtleEvent : Type
  | seg (p q : ℝ × ℝ)
  | redraw

/-- `Turtle._update()`: redraws (and delays) only when tracing is 1. -/
def updateEvents (st : TurtleState) : List TurtleEvent :=
  if st.tracing = 1 then [TurtleEvent.redraw] else []

/-- The hop count `nhops` computed by `Turtle._goto` in its animated
branch: `1 + int(sqrt((dx*xscale)**2 + (dy*yscale)**2) / (3 * 1.1**speed * speed))`. -/
noncomputable def nhops (st : TurtleState) (endp : ℝ × ℝ) : ℕ :=
  let diff := (endp.1 - st.position.1, endp.2 - st.position.2)
  let diffsq := (diff.1 * st.xscale) ^ 2 + (diff.2 * st.yscale) ^ 2
  1 + (⌊Real.sqrt diffsq / (3 * (1.1 : ℝ) ^ st.speed * (st.speed : ℝ))⌋).toNat

/-- The state effect of `Turtle._goto(end)`: position becomes `end`, and if
a fill path is open, `end` is appended to it exactly once (identical in
both branches of the source). -/
def gotoState (st : TurtleState) (endp : ℝ × ℝ) : TurtleState :=
  { st with position := endp, fillpath := st.fillpath.map (fun l => l ++ [endp]) }

/-- The drawing events of `Turtle._goto(end)`.  With nonzero speed and
tracing 1, the displacement is subdivided into `nhops` hops
`start + delta * n` (`delta = diff * (1/nhops)`, `n = 1..nhops`), each
drawing a segment from the screen position of `start` when the pen is down
and then updating; otherwise a single segment is drawn (pen down) with no
per-hop updates.  A final `_update` follows in either case. -/
noncomputable def gotoEvents (st : TurtleState) (endp : ℝ × ℝ) : List TurtleEvent :=
  let start := st.position
  if st.speed ≠ 0 ∧ st.tracing = 1 then
    let diff := (endp.1 - start.1, endp.2 - start.2)
    let N := nhops st endp
    let delta := ((1 : ℝ) / (N : ℝ)) • diff
    ((List.range N).flatMap fun i =>
      (if st.drawing then
        [TurtleEvent.seg (toScreen st start)
          (toScreen st (start + ((i : ℝ) + 1) • delta))]
      else []) ++ updateEvents st) ++ updateEvents st
  else
    (if st.drawing then [TurtleEvent.seg (toScreen st start) (toScreen st endp)]
     else []) ++ updateEvents st

/-- `Turtle._goto(end)`: final state and emitted events. -/
noncomputable def gotoTurtle (st : TurtleState) (endp : ℝ × ℝ) :
    TurtleState × List TurtleEvent :=
  (gotoState st endp, gotoEvents st endp)

/-- `Turtle._go(distance)`: displaces along the heading vector and
delegates to `_goto`. -/
noncomputable def goTurtle (st : TurtleState) (distance : ℝ) :
    TurtleState × List TurtleEvent :=
  gotoTurtle st (st.position + distance • st.orient)

/-- `Turtle.forward(distance)`. -/
noncomputable def forwardTurtle (st : TurtleState) (distance : ℝ) :
    TurtleState × List TurtleEvent :=
  goTurtle st distance

/-- `Turtle.backward(distance)`: `self._go(-distance)`. -/
noncomputable def backwardTurtle (st : TurtleState) (distance : ℝ) :
    TurtleState × List TurtleEvent :=
  goTurtle st (-distance)

/-- The setter branch of `Turtle.speed(speed)` for an integer argument:
values in `1..10` are stored as given, anything else becomes 0. -/
def speedSet (st : TurtleState) (s : ℕ) : TurtleState :=
  { st with speed := if 1 ≤ s ∧ s ≤ 10 then s else 0 }

/-- The module-level `tracer(n, delay)`: stores `n` as the screen's tracing
flag (the `delay` argument is ignored by this code). -/
def tracerSet (st : TurtleState) (n : ℤ) : TurtleState :=
  { st with tracing := n }

/-- The default step count of `Turtle.circle`:
`1 + int(min(11 + abs(radius)/6.0, 59.0) * frac)` with
`frac = abs(extent)/fullcircle`. -/
noncomputable def defaultSteps (st : TurtleState) (radius extent : ℝ) : ℕ :=
  1 + (⌊min (11 + |radius| / 6) 59 * (|extent| / st.fullcircle)⌋).toNat

/-- The chord loop of `Turtle.circle`, iterated `steps` times: each pass
restores the saved speed, walks one chord of length `l`, zeroes the speed
and turns by `w`. -/
noncomputable def circleLoop (speed0 : ℕ) (l w : ℝ) : ℕ → TurtleState → TurtleState
  | 0, st => st
  | k + 1, st =>
      circleLoop speed0 l w k
        (rotateTurtle (speedSet (goTurtle (speedSet st speed0) l).1 0) w)

/-- `Turtle.circle(radius, extent, steps)` (state effect; the drawing
events of the inner `_go` calls are not needed by any claim and are
dropped).  `extent = None` defaults to the full circle and `steps = None`
to `defaultSteps`; `w = extent/steps`, `w2 = w/2`, the chord is
`l = 2*radius*sin(radians(w2)*degreesPerAU)`, and all three flip sign when
`radius < 0`.  Around the loop the turtle pre-rotates by `w2`, walks
`steps` chord+turn pairs, counter-rotates by `w2`, and the saved speed and
tracing values are restored. -/
noncomputable def circleTurtle (st : TurtleState) (radius : ℝ) (extentOpt : Option ℝ)
    (stepsOpt : Option ℕ) : TurtleState :=
  let speed0 := st.speed
  let extent := extentOpt.getD st.fullcircle
  let steps := stepsOpt.getD (defaultSteps st radius extent)
  let w : ℝ := extent / (steps : ℝ)
  let w2 : ℝ := 0.5 * w
  let l : ℝ := 2 * radius * Real.sin (w2 * Real.pi / 180 * st.degreesPerAU)
  let l := if radius < 0 then -l else l
  let w := if radius < 0 then -w else w
  let w2 := if radius < 0 then -w2 else w2
  let tr := st.tracing
  let st1 := if speed0 = 0 then tracerSet st 0 else speedSet st 0
  let st2 := rotateTurtle st1 w2
  let st3 := circleLoop speed0 l w steps st2
  let st4 := rotateTurtle st3 (-w2)
  let st5 := if speed0 = 0 then tracerSet st4 tr else st4
  speedSet st5 speed0

/-! ## The animation loop (`Sketch.run_sketch`, `src/ipycc/sketch.py`)

`run_sketch(draw, seconds, delay)` raises when `delay < 0`; otherwise it
records `start = time.time()`, sets `end = start + seconds`, resets
`frame_count = 0` and runs `while time.time() < end:` — each iteration
draws one frame, increments `frame_count` and sleeps.  Wall time is
modelled as an abstract clock: `clock 0` is the `start` sample and
`clock k` (`k ≥ 1`) the sample read by the `k`-th loop condition check.
The loop is embedded with explicit fuel; `none` means the fuel ran out
before the loop exited. -/

/-- The `while time.time() < end` loop: `k` indexes the next clock sample,
`count` is the current `frame_count`. -/
def runLoop (clock : ℕ → ℚ) (endTime : ℚ) : ℕ → ℕ → ℕ → Option ℕ
  | _, _, 0 => none
  | k, count, fuel + 1 =>
      if clock k < endTime then runLoop clock endTime (k + 1) (count + 1) fuel
      else some count

/-- `Sketch.run_sketch(draw, seconds, delay)`: validates `delay`, resets
the frame count to 0 (discarding `prevFrameCount`) and runs the loop.
Returns the final `frame_count`. -/
def runSketch (clock : ℕ → ℚ) (seconds delayMs : ℚ) (_prevFrameCount : ℕ)
    (fuel : ℕ) : Except Unit (Option ℕ) :=
  if delayMs < 0 then .error ()
  else .ok (runLoop clock (clock 0 + seconds) 1 0 fuel)

/-! ### The `jupy5` animation loop (`Sketch.draw`, `src/jupy5/sketch.py`)

`draw(callback, duration?)` starts a cooperative loop after (when not
already looping) resetting `frame_count = 0` and recording
`_start_time = time.time()`.  The loop is timed only when
`type(args[1]) == int`: a duration of any other runtime type — including
every `float` such as `0.001` — leaves `timed_loop` false, and the loop
then runs until stopped externally.  Each iteration first increments
`frame_count`, then (when timed) clears `_is_looping` once
`now - _start_time > duration` — the in-flight frame still completes and
the `while` check exits afterwards, which the embedding folds into
returning the final count at that iteration. -/

/-- A Python number as passed for `durationSeconds`, keeping its runtime
type so that `type(x) == int` is expressible. -/
inductive PyNum : Type
  | int (n : ℤ)
  | float (q : ℚ)

/-- Python's `type(x) == int` for a `PyNum`. -/
def PyNum.isInt : PyNum → Bool
  | .int _ => true
  | .float _ => false

/-- The numeric value of a `PyNum`. -/
def PyNum.val : PyNum → ℚ
  | .int n => (n : ℚ)
  | .float q => q

/-- The `while self._is_looping` loop of `jupy5`'s `Sketch.draw`: each
iteration increments the count and, when `timedLoop` holds and the current
clock sample has passed `startTime + duration`, ends the loop with that
count; otherwise it keeps looping.  `none` means the fuel ran out with the
loop still running. -/
def jupy5Loop (clock : ℕ → ℚ) (startTime duration : ℚ) (timedLoop : Bool) :
    ℕ → ℕ → ℕ → Option ℕ
  | _, _, 0 => none
  | k, count, fuel + 1 =>
      if timedLoop ∧ startTime + duration < clock k then some (count + 1)
      else jupy5Loop clock startTime duration timedLoop (k + 1) (count + 1) fuel

/-- `jupy5`'s `Sketch.draw(callback, durationArg)` (loop behaviour; the
widget/display glue is out of scope): when not already looping, the frame
count resets to 0 and the start time is sampled; the loop is timed exactly
when the duration argument's runtime type is `int`. -/
def jupy5Draw (clock : ℕ → ℚ) (durationArg : Option PyNum) (prevStart : ℚ)
    (prevCount : ℕ) (prevLooping : Bool) (fuel : ℕ) : Option ℕ :=
  let count0 := if prevLooping then prevCount else 0
  let startTime := if prevLooping then prevStart else clock 0
  let timedLoop := match durationArg with
    | some d => d.isInt
    | none => false
  let duration := match durationArg with
    | some d => d.val
    | none => 0
  jupy5Loop clock startTime duration timedLoop 1 count0 fuel

/-! ## Observation helpers -/

/-- Whether a turtle event is a drawn line segment. -/
def isSeg : TurtleEvent → Bool
  | .seg _ _ => true
  | .redraw => false

/-- The drawn line segments among a list of turtle events. -/
def segsOf (evs : List TurtleEvent) : List TurtleEvent :=
  evs.filter isSeg

/-- A concrete turtle used to evaluate the motion model: a fresh turtle at
speed 1 with an open (empty) fill path. -/
noncomputable def sampleTurtle : TurtleState :=
  { initTurtle with speed := 1, fillpath := some [] }

end Ipycc

namespace Ipycc

/-! ## Theorems -/

/-- Helper: `IsUnit (0 : ℝ)` is false. -/
theorem not_isUnit_zero_real : ¬ IsUnit (0 : ℝ) := by
  simp

/-- C1 counterexample: on a fresh sketch (pixel density 2), `translate(50, 50)`
does not left-multiply the standard homogeneous translation matrix: the
recorded matrix differs from `T(50,50) · M₀` (already at the (0,0) entry). -/
theorem translate_not_std_matrix :
    (TransformOp.translate 50 50).apply (initMatrix 2) ≠
      (TransformOp.translate 50 50).stdMatrix * initMatrix 2 := by
  intro hEq
  have h := congrFun (congrFun hEq 0) 0
  simp [TransformOp.apply, TransformOp.stdMatrix, translateMatrix, initMatrix,
    Matrix.mul_apply, Fin.sum_univ_three] at h

/-- C1 (amended): every transform operation left-multiplies the 3x3 matrix
the code constructs onto the recorded matrix (`M_new = Op · M_current`);
for `apply_matrix`, `rotate`, `scale` and the shears that matrix is the
standard homogeneous operation matrix (only `translate`'s differs); after
a fresh Sketch performs `translate(50, 50)`, the recorded matrix still
maps the point (0,0) to (50,50); and `reset_matrix()` restores the
identity regardless of how many operations were composed before it. -/
theorem transform_composition_amended :
    (∀ (op : TransformOp) (M : Mat3), op.apply M = op.codeMatrix * M) ∧
    (∀ a b c d e f : ℝ, (TransformOp.applyMatrix a b c d e f).codeMatrix =
      (TransformOp.applyMatrix a b c d e f).stdMatrix) ∧
    (∀ angle : ℝ, (TransformOp.rotate angle).codeMatrix =
      (TransformOp.rotate angle).stdMatrix) ∧
    (∀ x : ℝ, (TransformOp.scaleUniform x).codeMatrix =
      (TransformOp.scaleUniform x).stdMatrix) ∧
    (∀ x y : ℝ, (TransformOp.scaleXY x y).codeMatrix =
      (TransformOp.scaleXY x y).stdMatrix) ∧
    (∀ angle : ℝ, (TransformOp.shearX angle).codeMatrix =
      (TransformOp.shearX angle).stdMatrix) ∧
    (∀ angle : ℝ, (TransformOp.shearY angle).codeMatrix =
      (TransformOp.shearY angle).stdMatrix) ∧
    mulPoint ((TransformOp.translate 50 50).apply (initMatrix 2)) 0 0 = (50, 50) ∧
    (∀ (ops : List TransformOp) (M : Mat3),
      resetMatrix (ops.foldl (fun acc op => op.apply acc) M) = 1) := by
  refine ⟨fun op M => ?_, fun _ _ _ _ _ _ => rfl, fun _ => rfl, fun _ => rfl,
    fun _ _ => rfl, fun _ => rfl, fun _ => rfl, ?_, fun _ _ => rfl⟩
  · cases op <;>
      simp [TransformOp.apply, TransformOp.codeMatrix, applyMatrix, rotateMatrix,
        scaleUniform, scaleXY, shearXMatrix, shearYMatrix, translateMatrix]
  · simp [TransformOp.apply, translateMatrix, initMatrix, mulPoint,
      Matrix.mul_apply, Fin.sum_univ_three]

/-- C2: for all real anchors/controls and every `t` in [0,1],
`bezier_point` equals the cubic Bernstein form; in particular
`bezier_point(85, 10, 90, 15, 0.5) = 50` and
`bezier_tangent(95, 73, 73, 15, 0.5) = -60` exactly. -/
theorem bezier_point_tangent_spec :
    (∀ a b c d t : ℝ, 0 ≤ t → t ≤ 1 →
      bezierPoint a b c d t =
        (1 - t) ^ 3 * a + 3 * (1 - t) ^ 2 * t * b
          + 3 * (1 - t) * t ^ 2 * c + t ^ 3 * d) ∧
    bezierPoint 85 10 90 15 (1 / 2) = 50 ∧
    bezierTangent 95 73 73 15 (1 / 2) = -60 := by
  refine ⟨fun a b c d t _ _ => rfl, by norm_num [bezierPoint],
    by norm_num [bezierTangent]⟩

/-- C2 witness: the Bernstein identity applied at the concrete test input
`(85, 10, 90, 15, 0.5)`, with the interval hypotheses discharged. -/
theorem bezier_point_tangent_spec_witness :
    (0 : ℝ) ≤ 1 / 2 ∧ (1 / 2 : ℝ) ≤ 1 ∧
    bezierPoint 85 10 90 15 (1 / 2) =
      (1 - 1 / 2) ^ 3 * 85 + 3 * (1 - 1 / 2) ^ 2 * (1 / 2) * 10
        + 3 * (1 - 1 / 2) * (1 / 2) ^ 2 * 90 + (1 / 2) ^ 3 * 15 :=
  ⟨by norm_num, by norm_num,
    bezier_point_tangent_spec.1 85 10 90 15 (1 / 2) (by norm_num) (by norm_num)⟩

/-- C4 (code bug evidence): immediately after `translate(50, 50)` on a
fresh sketch — with no scale operation ever called — the recorded
transform matrix has determinant 0 and is not invertible. -/
theorem translate_breaks_invertibility :
    Matrix.det (translateMatrix 50 50 (initMatrix 2)) = 0 ∧
    ¬ IsUnit (translateMatrix 50 50 (initMatrix 2)) := by
  have hdet : Matrix.det (translateMatrix 50 50 (initMatrix 2)) = 0 := by
    rw [translateMatrix, Matrix.det_mul]
    have h0 : Matrix.det !![(0 : ℝ), 0, 50; 0, 0, 50; 0, 0, 1] = 0 := by
      simp [Matrix.det_fin_three]
    rw [h0, zero_mul]
  refine ⟨hdet, fun hu => ?_⟩
  have h := (Matrix.isUnit_iff_isUnit_det _).mp hu
  rw [hdet] at h
  exact not_isUnit_zero_real h

/-- C9: the `colormode` setter leaves the stored mode unchanged (raising
nothing: the embedded function is total) for any argument other than a
value equal to 1.0 or 255, sets the mode for exactly those two values, and
the argument-free call returns the current mode. -/
theorem colormode_spec :
    (∀ current cmode : ℚ, cmode ≠ 1 → cmode ≠ 255 →
      colormodeSet current cmode = current) ∧
    (∀ current : ℚ, colormodeSet current 1 = 1) ∧
    (∀ current : ℚ, colormodeSet current 255 = 255) ∧
    (∀ current : ℚ, colormodeGet current = current) := by
  refine ⟨fun current cmode h1 h255 => ?_, fun current => ?_, fun current => ?_,
    fun current => rfl⟩
  · simp [colormodeSet, h1, h255]
  · simp [colormodeSet]
  · norm_num [colormodeSet]

/-- C9 witness: `colormode(7)` on a screen in mode 1.0 leaves the mode at
1.0, with the two disequality hypotheses discharged concretely. -/
theorem colormode_spec_witness :
    (7 : ℚ) ≠ 1 ∧ (7 : ℚ) ≠ 255 ∧ colormodeSet 1 7 = 1 :=
  ⟨by norm_num, by norm_num,
    colormode_spec.1 1 7 (by norm_num) (by norm_num)⟩

/-- Helper: folding `vertex` over a point list appends the points in
insertion order. -/
theorem vertexShape_foldl (buf : List (ℝ × ℝ)) (pts : List (ℝ × ℝ)) :
    pts.foldl (fun b p => (vertexShape b p.1 p.2).1) buf = buf ++ pts := by
  induction pts generalizing buf with
  | nil => simp
  | cons p rest ih =>
      rw [List.foldl_cons, ih]
      simp [vertexShape]

/-- C5 counterexample: in the `jupy5` variant, after
`begin_shape(); vertex(0, 0); end_shape()` a second `end_shape()` with no
intervening vertices does not draw nothing — it re-issues the polygon
draw, because `end_shape` never cleared the buffer. -/
theorem jupy5_end_shape_not_cleared :
    (endShapeJupy5 ((endShapeJupy5 ((vertexShape (beginShape []).1 0 0).1)).1)).2 ≠
      [] := by
  simp [beginShape, vertexShape, endShapeJupy5]

/-- C5 (amended): in the ipycc `Sketch`, `begin_shape(); vertex*n;
end_shape()` (n ≥ 1) issues exactly one filled-and-stroked polygon draw
with the n recorded vertices in insertion order and clears the buffer, so
that a subsequent `end_shape()` draws nothing and raises nothing; the
`jupy5` variant issues the same single draw but leaves the buffer
unchanged. -/
theorem shape_roundtrip_amended (b0 pts : List (ℝ × ℝ)) (hne : pts ≠ []) :
    endShape (pts.foldl (fun b p => (vertexShape b p.1 p.2).1) (beginShape b0).1) =
      ([], [CanvasOp.fillPolygon pts, CanvasOp.strokePolygon pts]) ∧
    (endShape
      (endShape
        (pts.foldl (fun b p => (vertexShape b p.1 p.2).1) (beginShape b0).1)).1).2 =
      [] ∧
    endShapeJupy5 (pts.foldl (fun b p => (vertexShape b p.1 p.2).1) (beginShape b0).1) =
      (pts, [CanvasOp.fillPolygon pts, CanvasOp.strokePolygon pts]) := by
  have hbuf : pts.foldl (fun b p => (vertexShape b p.1 p.2).1) (beginShape b0).1 = pts := by
    rw [show (beginShape b0).1 = [] from rfl, vertexShape_foldl, List.nil_append]
  have hlen : pts.length > 0 := List.length_pos.mpr hne
  have hfirst : (endShape pts).1 = [] := by
    rw [endShape, if_pos hlen]
  refine ⟨?_, ?_, ?_⟩
  · rw [hbuf, endShape, if_pos hlen]
  · rw [hbuf, hfirst]
    simp [endShape]
  · rw [hbuf, endShapeJupy5, if_pos hlen]

/-- C5 witness: the amended round trip evaluated at the single vertex
`(1, 2)`, with the non-emptiness hypothesis discharged. -/
theorem shape_roundtrip_amended_witness :
    ([((1 : ℝ), (2 : ℝ))] ≠ ([] : List (ℝ × ℝ))) ∧
    endShape ([((1 : ℝ), (2 : ℝ))].foldl (fun b p => (vertexShape b p.1 p.2).1)
        (beginShape []).1) =
      ([], [CanvasOp.fillPolygon [(1, 2)], CanvasOp.strokePolygon [(1, 2)]]) :=
  ⟨by simp, (shape_roundtrip_amended [] [(1, 2)] (by simp)).1⟩

/-- Helper: rotating a vector by 0 is the identity. -/
theorem rotateVec_zero (v : ℝ × ℝ) : rotateVec v 0 = v := by
  simp [rotateVec]

/-- Helper: successive `Vec2D.rotate` calls add their angles. -/
theorem rotateVec_rotateVec (v : ℝ × ℝ) (a b : ℝ) :
    rotateVec (rotateVec v a) b = rotateVec v (a + b) := by
  have h : (a + b) * Real.pi / 180 = a * Real.pi / 180 + b * Real.pi / 180 := by
    ring
  simp only [rotateVec, h, Real.cos_add, Real.sin_add, Prod.mk.injEq]
  constructor <;> ring

/-- Helper: a quarter turn counterclockwise of the unit x-vector. -/
theorem rotateVec_ninety : rotateVec ((1 : ℝ), (0 : ℝ)) 90 = (0, 1) := by
  have h : (90 : ℝ) * Real.pi / 180 = Real.pi / 2 := by ring
  simp [rotateVec, h]

/-- Helper: a quarter turn clockwise of the unit x-vector. -/
theorem rotateVec_neg_ninety : rotateVec ((1 : ℝ), (0 : ℝ)) (-90) = (0, -1) := by
  have h : (-90 : ℝ) * Real.pi / 180 = -(Real.pi / 2) := by ring
  simp only [rotateVec]
  rw [h]
  simp

/-- Helper: restoring speed and tracing at the end of `circle` does not
touch the orientation. -/
theorem orient_after_restore (c : Prop) [Decidable c] (a : TurtleState) (tr : ℤ)
    (s : ℕ) : (speedSet (if c then tracerSet a tr else a) s).orient = a.orient := by
  by_cases h : c <;> simp [h, speedSet, tracerSet]

/-- Helper: saving speed and tracing at the start of `circle` does not
touch the orientation. -/
theorem orient_after_save (c : Prop) [Decidable c] (a : TurtleState) :
    ((if c then tracerSet a 0 else speedSet a 0)).orient = a.orient := by
  by_cases h : c <;> simp [h, speedSet, tracerSet]

/-- Helper: the chord loop of `circle` rotates the orientation by exactly
`steps · w` (the chord walks never touch the orientation). -/
theorem circleLoop_orient (speed0 : ℕ) (l w : ℝ) (k : ℕ) (st : TurtleState) :
    (circleLoop speed0 l w k st).orient = rotateVec st.orient ((k : ℝ) * w) := by
  induction k generalizing st with
  | zero => simp [circleLoop, rotateVec_zero]
  | succ k ih =>
      rw [circleLoop, ih]
      have horient :
          (rotateTurtle (speedSet (goTurtle (speedSet st speed0) l).1 0) w).orient =
            rotateVec st.orient w := rfl
      rw [horient, rotateVec_rotateVec]
      congr 1
      push_cast
      ring

/-- Helper: the net orientation effect of `Turtle.circle`: the direction
vector is rotated by `steps · w`, where `w = extent/steps` flips sign for
negative radius (the pre- and counter-rotations by `w2` cancel). -/
theorem circleTurtle_orient (st : TurtleState) (radius : ℝ) (extentOpt : Option ℝ)
    (stepsOpt : Option ℕ) (n : ℕ) (w : ℝ)
    (hn : n = stepsOpt.getD (defaultSteps st radius (extentOpt.getD st.fullcircle)))
    (hw : w = if radius < 0 then -(extentOpt.getD st.fullcircle / (n : ℝ))
          else extentOpt.getD st.fullcircle / (n : ℝ)) :
    (circleTurtle st radius extentOpt stepsOpt).orient =
      rotateVec st.orient ((n : ℝ) * w) := by
  subst hn
  subst hw
  simp only [circleTurtle, orient_after_restore]
  have hrot : ∀ (a : TurtleState) (ang : ℝ), (rotateTurtle a ang).orient =
      rotateVec a.orient ang := fun a ang => rfl
  rw [hrot, circleLoop_orient, hrot, orient_after_save, rotateVec_rotateVec,
    rotateVec_rotateVec]
  congr 1
  split <;> ring

/-- C7 counterexample: in the default degrees mode, `circle(-1, 90, 1)`
changes the orientation by -90 degrees, not +90: the turtle ends up
pointing at (0, -1), while a heading change of exactly `extent` would give
(0, 1). -/
theorem circle_negative_radius_ce :
    rotateVec initTurtle.orient ((90 : ℝ) * initTurtle.degreesPerAU) = (0, 1) ∧
    (circleTurtle initTurtle (-1) (some 90) (some 1)).orient = (0, -1) ∧
    (circleTurtle initTurtle (-1) (some 90) (some 1)).orient ≠
      rotateVec initTurtle.orient ((90 : ℝ) * initTurtle.degreesPerAU) := by
  have h1 : rotateVec initTurtle.orient ((90 : ℝ) * initTurtle.degreesPerAU) =
      (0, 1) := by
    rw [show initTurtle.degreesPerAU = 1 from rfl, mul_one,
      show initTurtle.orient = ((1 : ℝ), (0 : ℝ)) from rfl, rotateVec_ninety]
  have h2 : (circleTurtle initTurtle (-1) (some 90) (some 1)).orient = (0, -1) := by
    rw [circleTurtle_orient initTurtle (-1) (some 90) (some 1) 1 (-90) rfl
      (by norm_num)]
    rw [show initTurtle.orient = ((1 : ℝ), (0 : ℝ)) from rfl]
    norm_num [rotateVec_neg_ninety]
  refine ⟨h1, h2, ?_⟩
  rw [h1, h2]
  intro hEq
  have h := congrArg Prod.snd hEq
  norm_num at h

/-- C7 (amended): when the turtle uses the default degrees units
(`degreesPerAU = 1`) and the radius is nonnegative, `circle(radius,
extent)` changes the heading by exactly `extent` — the direction vector is
rotated by `extent · degreesPerAU` degrees — independent of the step
count, whether passed explicitly (any `steps ≥ 1`) or computed by the
default formula. -/
theorem circle_heading_amended (st : TurtleState) (radius extent : ℝ) (steps : ℕ)
    (hd : st.degreesPerAU = 1) (hr : 0 ≤ radius) (hs : 1 ≤ steps) :
    (circleTurtle st radius (some extent) (some steps)).orient =
      rotateVec st.orient (extent * st.degreesPerAU) ∧
    (circleTurtle st radius (some extent) none).orient =
      rotateVec st.orient (extent * st.degreesPerAU) := by
  rw [hd, mul_one]
  have hflip : ¬ radius < 0 := not_lt.mpr hr
  constructor
  · rw [circleTurtle_orient st radius (some extent) (some steps) steps
      (extent / (steps : ℝ)) rfl (by simp [hflip])]
    congr 1
    have h0 : (steps : ℝ) ≠ 0 := Nat.cast_ne_zero.mpr (by omega)
    field_simp
  · rw [circleTurtle_orient st radius (some extent) none
      (defaultSteps st radius extent) (extent / (defaultSteps st radius extent : ℝ))
      rfl (by simp [hflip])]
    congr 1
    have h0 : ((defaultSteps st radius extent : ℕ) : ℝ) ≠ 0 := by
      have : 1 ≤ defaultSteps st radius extent := Nat.le_add_right 1 _
      exact Nat.cast_ne_zero.mpr (by omega)
    field_simp

/-- C7 witness: the amended statement applied to a fresh turtle, radius 50,
extent 90 and one explicit step, with all hypotheses discharged. -/
theorem circle_heading_amended_witness :
    initTurtle.degreesPerAU = 1 ∧ (0 : ℝ) ≤ 50 ∧ (1 : ℕ) ≤ 1 ∧
    (circleTurtle initTurtle 50 (some 90) (some 1)).orient =
      rotateVec initTurtle.orient ((90 : ℝ) * initTurtle.degreesPerAU) :=
  ⟨rfl, by norm_num, le_refl 1,
    (circle_heading_amended initTurtle 50 90 1 rfl (by norm_num) (le_refl 1)).1⟩

/-- C8 (code bug evidence): after `radians()`, `left(π/2)` rotates the
internal direction vector by the raw argument interpreted as degrees
(π/2 degrees, i.e. π²/360 radians) instead of first converting it via
`degreesPerAU`; the converted rotation — modelled from the spec — yields
direction (0, 1) (a quarter turn), and the code's result differs from it. -/
theorem rotate_skips_unit_conversion :
    (leftConverted (radiansMode initTurtle) (Real.pi / 2)).orient = (0, 1) ∧
    (leftTurtle (radiansMode initTurtle) (Real.pi / 2)).orient ≠
      (leftConverted (radiansMode initTurtle) (Real.pi / 2)).orient := by
  have hangle : Real.pi / 2 * (radiansMode initTurtle).angleOrient *
      (radiansMode initTurtle).degreesPerAU = 90 := by
    rw [show (radiansMode initTurtle).angleOrient = 1 from rfl,
      show (radiansMode initTurtle).degreesPerAU = 360 / (2 * Real.pi) from rfl]
    have hpi := Real.pi_ne_zero
    field_simp
    ring
  have hconv : (leftConverted (radiansMode initTurtle) (Real.pi / 2)).orient =
      (0, 1) := by
    show rotateVec (radiansMode initTurtle).orient
      (Real.pi / 2 * (radiansMode initTurtle).angleOrient *
        (radiansMode initTurtle).degreesPerAU) = (0, 1)
    rw [hangle, show (radiansMode initTurtle).orient = ((1 : ℝ), (0 : ℝ)) from rfl,
      rotateVec_ninety]
  have hcode : (leftTurtle (radiansMode initTurtle) (Real.pi / 2)).orient =
      (Real.cos (Real.pi / 2 * Real.pi / 180),
        Real.sin (Real.pi / 2 * Real.pi / 180)) := by
    show rotateVec (radiansMode initTurtle).orient (Real.pi / 2) = _
    rw [show (radiansMode initTurtle).orient = ((1 : ℝ), (0 : ℝ)) from rfl]
    simp [rotateVec]
  refine ⟨hconv, ?_⟩
  rw [hconv, hcode]
  intro hEq
  have h1 : Real.cos (Real.pi / 2 * Real.pi / 180) = 0 := congrArg Prod.fst hEq
  have hlt : Real.pi / 2 * Real.pi / 180 < Real.pi / 2 := by
    nlinarith [Real.pi_pos, Real.pi_lt_d2]
  have hgt : -(Real.pi / 2) < Real.pi / 2 * Real.pi / 180 := by
    have hpos : (0 : ℝ) < Real.pi / 2 * Real.pi / 180 := by positivity
    have := Real.pi_pos
    linarith
  have hcos := Real.cos_pos_of_mem_Ioo ⟨hgt, hlt⟩
  rw [h1] at hcos
  exact lt_irrefl 0 hcos

/-- Helper: the arc epsilon is positive. -/
theorem epsilon_pos : (0 : ℝ) < epsilon := by
  show (0 : ℝ) < 1 / 100000
  norm_num

/-- Helper: the arc epsilon is below a quarter turn. -/
theorem epsilon_le_half_pi : epsilon ≤ Real.pi / 2 := by
  show (1 : ℝ) / 100000 ≤ Real.pi / 2
  have h3 := Real.pi_gt_three
  linarith

/-- Helper: every sub-arc produced by the `arc` loop has positive size of
at most π/2. -/
theorem arcSegments_sizes (start stop : ℝ) :
    ∀ p ∈ arcSegments start stop, 0 < p.2 ∧ p.2 ≤ Real.pi / 2 := by
  induction start, stop using arcSegments.induct with
  | case1 start stop h size ih =>
      intro p hp
      rw [arcSegments, dif_pos h] at hp
      rcases List.mem_cons.mp hp with hp | hp
      · subst hp
        exact ⟨lt_of_lt_of_le epsilon_pos (le_min h epsilon_le_half_pi),
          min_le_right _ _⟩
      · exact ih p hp
  | case2 start stop h =>
      intro p hp
      rw [arcSegments, dif_neg h] at hp
      exact absurd hp (List.not_mem_nil p)

/-- Helper: the sub-arcs produced by the `arc` loop chain consecutively
from the requested start angle. -/
theorem arcSegments_chained (start stop : ℝ) :
    chainedFrom start (arcSegments start stop) := by
  induction start, stop using arcSegments.induct with
  | case1 start stop h size ih =>
      rw [arcSegments, dif_pos h]
      exact ⟨rfl, ih⟩
  | case2 start stop h =>
      rw [arcSegments, dif_neg h]
      trivial

/-- Helper: the `arc` loop stops with a residual angle below epsilon. -/
theorem arcSegments_residual (start stop : ℝ) :
    stop - (start + ((arcSegments start stop).map Prod.snd).sum) < epsilon := by
  induction start, stop using arcSegments.induct with
  | case1 start stop h size ih =>
      rw [arcSegments, dif_pos h]
      simp only [List.map_cons, List.sum_cons]
      linarith [ih]
  | case2 start stop h =>
      rw [arcSegments, dif_neg h]
      simp only [List.map_nil, List.sum_nil, add_zero]
      linarith [not_le.mp h]

/-- Helper: the waypoints of `_acute_arc_to_bezier` satisfy the spec's
formulas with `α = size/2`, `λ = (4 - cos α)/3`,
`μ = sin α + (cos α - λ)·cot α` written with `cot α = cos α / sin α`. -/
theorem acuteArcToBezier_formulas (s sz : ℝ) :
    acuteArcToBezier s sz =
      { ax := round7 (Real.cos s)
        ay := round7 (Real.sin s)
        bx := round7 ((4 - Real.cos (sz / 2)) / 3 * Real.cos (s + sz / 2) +
          (Real.sin (sz / 2) + (Real.cos (sz / 2) - (4 - Real.cos (sz / 2)) / 3) *
            (Real.cos (sz / 2) / Real.sin (sz / 2))) * Real.sin (s + sz / 2))
        by' := round7 ((4 - Real.cos (sz / 2)) / 3 * Real.sin (s + sz / 2) -
          (Real.sin (sz / 2) + (Real.cos (sz / 2) - (4 - Real.cos (sz / 2)) / 3) *
            (Real.cos (sz / 2) / Real.sin (sz / 2))) * Real.cos (s + sz / 2))
        cx := round7 ((4 - Real.cos (sz / 2)) / 3 * Real.cos (s + sz / 2) -
          (Real.sin (sz / 2) + (Real.cos (sz / 2) - (4 - Real.cos (sz / 2)) / 3) *
            (Real.cos (sz / 2) / Real.sin (sz / 2))) * Real.sin (s + sz / 2))
        cy := round7 ((4 - Real.cos (sz / 2)) / 3 * Real.sin (s + sz / 2) +
          (Real.sin (sz / 2) + (Real.cos (sz / 2) - (4 - Real.cos (sz / 2)) / 3) *
            (Real.cos (sz / 2) / Real.sin (sz / 2))) * Real.cos (s + sz / 2))
        dx := round7 (Real.cos (s + sz))
        dy := round7 (Real.sin (s + sz)) } := by
  have hhalf : sz * 0.5 = sz / 2 := by ring
  have hcot : 1 / Real.tan (sz / 2) = Real.cos (sz / 2) / Real.sin (sz / 2) := by
    rw [Real.tan_eq_sin_div_cos, one_div, inv_div]
  simp only [acuteArcToBezier, hhalf, hcot, ArcBezier.mk.injEq]
  refine ⟨?_, ?_, ?_, ?_, ?_, ?_, ?_, ?_⟩ <;> first
    | trivial
    | (congr 1; ring)

/-- C3: every `arc(x, y, w, h, start, stop)` call with `stop > start`
decomposes the arc into consecutive sub-arcs of size at most π/2 each
(stopping when the remaining angle drops below `epsilon = 1e-5`), converts
each sub-arc via the `α`, `λ`, `μ` formulas into one cubic Bezier segment,
and emits all segments as one connected path that is closed back to the
ellipse center and then filled and stroked. -/
theorem arc_decomposition_spec (x y w h start stop : ℝ) (_hlt : start < stop) :
    (∀ p ∈ arcSegments start stop, 0 < p.2 ∧ p.2 ≤ Real.pi / 2) ∧
    chainedFrom start (arcSegments start stop) ∧
    stop - (start + ((arcSegments start stop).map Prod.snd).sum) < epsilon ∧
    (∀ s sz : ℝ, acuteArcToBezier s sz =
      { ax := round7 (Real.cos s)
        ay := round7 (Real.sin s)
        bx := round7 ((4 - Real.cos (sz / 2)) / 3 * Real.cos (s + sz / 2) +
          (Real.sin (sz / 2) + (Real.cos (sz / 2) - (4 - Real.cos (sz / 2)) / 3) *
            (Real.cos (sz / 2) / Real.sin (sz / 2))) * Real.sin (s + sz / 2))
        by' := round7 ((4 - Real.cos (sz / 2)) / 3 * Real.sin (s + sz / 2) -
          (Real.sin (sz / 2) + (Real.cos (sz / 2) - (4 - Real.cos (sz / 2)) / 3) *
            (Real.cos (sz / 2) / Real.sin (sz / 2))) * Real.cos (s + sz / 2))
        cx := round7 ((4 - Real.cos (sz / 2)) / 3 * Real.cos (s + sz / 2) -
          (Real.sin (sz / 2) + (Real.cos (sz / 2) - (4 - Real.cos (sz / 2)) / 3) *
            (Real.cos (sz / 2) / Real.sin (sz / 2))) * Real.sin (s + sz / 2))
        cy := round7 ((4 - Real.cos (sz / 2)) / 3 * Real.sin (s + sz / 2) +
          (Real.sin (sz / 2) + (Real.cos (sz / 2) - (4 - Real.cos (sz / 2)) / 3) *
            (Real.cos (sz / 2) / Real.sin (sz / 2))) * Real.cos (s + sz / 2))
        dx := round7 (Real.cos (s + sz))
        dy := round7 (Real.sin (s + sz)) }) ∧
    arc x y w h start stop =
      [CanvasOp.beginPath] ++
        (match (arcSegments start stop).map (fun p => acuteArcToBezier p.1 p.2) with
          | [] => []
          | c :: _ => [CanvasOp.moveTo (x + c.ax * (w * 0.5)) (y + c.ay * (h * 0.5))]) ++
        ((arcSegments start stop).map (fun p => acuteArcToBezier p.1 p.2)).map (fun c =>
          CanvasOp.bezierCurveTo (x + c.bx * (w * 0.5)) (y + c.by' * (h * 0.5))
            (x + c.cx * (w * 0.5)) (y + c.cy * (h * 0.5))
            (x + c.dx * (w * 0.5)) (y + c.dy * (h * 0.5))) ++
        [CanvasOp.lineTo x y, CanvasOp.closePath, CanvasOp.fill, CanvasOp.stroke] :=
  ⟨arcSegments_sizes start stop, arcSegments_chained start stop,
    arcSegments_residual start stop, acuteArcToBezier_formulas, rfl⟩

/-- C3 witness: the decomposition property applied to the half-turn arc
from 0 to π, with the `stop > start` hypothesis discharged by `π > 0`. -/
theorem arc_decomposition_spec_witness :
    (0 : ℝ) < Real.pi ∧ chainedFrom 0 (arcSegments 0 Real.pi) :=
  ⟨Real.pi_pos, (arc_decomposition_spec 0 0 2 2 0 Real.pi Real.pi_pos).2.1⟩

/-- Helper: `segsOf` distributes over append. -/
theorem segsOf_append (a b : List TurtleEvent) :
    segsOf (a ++ b) = segsOf a ++ segsOf b := by
  simp [segsOf]

/-- Helper: `_update` never draws a segment. -/
theorem segsOf_updateEvents (st : TurtleState) : segsOf (updateEvents st) = [] := by
  unfold updateEvents segsOf
  split <;> simp [isSeg]

/-- Helper: filtering the segments out of the per-hop event stream leaves
one segment per hop when the pen is down and nothing otherwise. -/
theorem segsOf_hops (l : List ℕ) (b : Bool) (f g : ℕ → ℝ × ℝ)
    (upd : List TurtleEvent) (hupd : segsOf upd = []) :
    segsOf (l.flatMap fun i =>
        (if b then [TurtleEvent.seg (f i) (g i)] else []) ++ upd) =
      if b then l.map (fun i => TurtleEvent.seg (f i) (g i)) else [] := by
  induction l with
  | nil => cases b <;> simp [segsOf]
  | cons i rest ih =>
      rw [List.flatMap_cons, segsOf_append, segsOf_append, hupd, ih]
      cases b <;> simp [segsOf, isSeg]

/-- C6: `_goto` with nonzero speed while tracing is 1 subdivides the
displacement into exactly `N = 1 + floor(sqrt(dx²·xscale² + dy²·yscale²) /
(3·1.1^speed·speed))` equal hops, each drawing one segment when the pen is
down; with speed 0 or tracing disabled the whole displacement is one
segment with no intermediate redraws; an open fill path gets the target
appended exactly once; and `forward`/`backward` delegate to `_goto` along
the heading vector. -/
theorem goto_subdivision (st : TurtleState) (endp : ℝ × ℝ) :
    (st.speed ≠ 0 → st.tracing = 1 →
      nhops st endp =
        1 + (⌊Real.sqrt ((endp.1 - st.position.1) ^ 2 * st.xscale ^ 2 +
            (endp.2 - st.position.2) ^ 2 * st.yscale ^ 2) /
          (3 * (1.1 : ℝ) ^ st.speed * (st.speed : ℝ))⌋).toNat ∧
      segsOf (gotoEvents st endp) =
        (if st.drawing then
          (List.range (nhops st endp)).map fun i : ℕ =>
            TurtleEvent.seg (toScreen st st.position)
              (toScreen st (st.position +
                (((i : ℝ) + 1) / (nhops st endp : ℝ)) •
                  (endp.1 - st.position.1, endp.2 - st.position.2)))
        else [])) ∧
    (st.speed = 0 ∨ st.tracing ≠ 1 →
      gotoEvents st endp =
        (if st.drawing then
          [TurtleEvent.seg (toScreen st st.position) (toScreen st endp)] else []) ++
        (if st.tracing = 1 then [TurtleEvent.redraw] else [])) ∧
    (∀ lpath, st.fillpath = some lpath →
      (gotoTurtle st endp).1.fillpath = some (lpath ++ [endp])) ∧
    (gotoTurtle st endp).1.position = endp ∧
    (∀ d : ℝ, forwardTurtle st d = gotoTurtle st (st.position + d • st.orient) ∧
      backwardTurtle st d = gotoTurtle st (st.position + (-d) • st.orient)) := by
  refine ⟨fun hsp htr => ⟨?_, ?_⟩, fun hor => ?_, fun lpath hl => ?_, rfl,
    fun d => ⟨rfl, rfl⟩⟩
  · have hsq : ((endp.1 - st.position.1) * st.xscale) ^ 2 +
        ((endp.2 - st.position.2) * st.yscale) ^ 2 =
        (endp.1 - st.position.1) ^ 2 * st.xscale ^ 2 +
          (endp.2 - st.position.2) ^ 2 * st.yscale ^ 2 := by ring
    simp only [nhops]
    rw [hsq]
  · simp only [gotoEvents]
    rw [if_pos (⟨hsp, htr⟩ : st.speed ≠ 0 ∧ st.tracing = 1)]
    rw [segsOf_append, segsOf_updateEvents, List.append_nil,
      segsOf_hops _ _ _ _ _ (segsOf_updateEvents st)]
    simp only [smul_smul, mul_one_div]
  · have hcond : ¬ (st.speed ≠ 0 ∧ st.tracing = 1) := by tauto
    simp only [gotoEvents, updateEvents]
    rw [if_neg hcond]
  · simp [gotoTurtle, gotoState, hl]

/-- C6 witness: a pen-down turtle at speed 1 moving from (0,0) to (3,4) on
a unit-scale screen is subdivided into exactly 2 hops
(`1 + floor(5/3.3) = 2` drawn segments), with the branch hypotheses
discharged concretely. -/
theorem goto_subdivision_witness :
    sampleTurtle.speed ≠ 0 ∧ sampleTurtle.tracing = 1 ∧
    (segsOf (gotoEvents sampleTurtle (3, 4))).length = 2 := by
  have hsp : sampleTurtle.speed ≠ 0 := by
    norm_num [sampleTurtle, initTurtle]
  have htr : sampleTurtle.tracing = 1 := rfl
  refine ⟨hsp, htr, ?_⟩
  have h := ((goto_subdivision sampleTurtle (3, 4)).1 hsp htr).2
  rw [h, if_pos (show sampleTurtle.drawing = true from rfl),
    List.length_map, List.length_range]
  show nhops sampleTurtle (3, 4) = 2
  simp only [nhops]
  norm_num [sampleTurtle, initTurtle]
  rw [show (25 : ℝ) = 5 ^ 2 by norm_num, Real.sqrt_sq (by norm_num : (0 : ℝ) ≤ 5)]
  rw [show ⌊(5 : ℝ) / (33 / 10)⌋ = 1 by
    rw [Int.floor_eq_iff] <;> norm_num]
  rfl

/-- Helper: if the clock sample after `fuel` more checks has passed the
end time, the frame loop returns within that much fuel, counts at least
one more frame when the current check is still inside the duration, and
never counts more frames than checks. -/
theorem runLoop_spec (clock : ℕ → ℚ) (endTime : ℚ) :
    ∀ (fuel k count : ℕ), endTime ≤ clock (k + fuel) →
      ∃ c, runLoop clock endTime k count (fuel + 1) = some c ∧
        count ≤ c ∧ c ≤ count + fuel ∧ (clock k < endTime → count + 1 ≤ c) := by
  intro fuel
  induction fuel with
  | zero =>
      intro k count hcl
      rw [Nat.add_zero] at hcl
      have hstep : runLoop clock endTime k count 1 =
          if clock k < endTime then runLoop clock endTime (k + 1) (count + 1) 0
          else some count := rfl
      refine ⟨count, ?_, le_refl _, by omega, fun hlt => absurd hlt (not_lt.mpr hcl)⟩
      rw [hstep, if_neg (not_lt.mpr hcl)]
  | succ fuel ih =>
      intro k count hcl
      have hstep : runLoop clock endTime k count (fuel + 1 + 1) =
          if clock k < endTime then
            runLoop clock endTime (k + 1) (count + 1) (fuel + 1)
          else some count := rfl
      by_cases hlt : clock k < endTime
      · have hcl' : endTime ≤ clock (k + 1 + fuel) := by
          have harith : k + 1 + fuel = k + (fuel + 1) := by omega
          rw [harith]
          exact hcl
        obtain ⟨c, hrun, hle, hub, _⟩ := ih (k + 1) (count + 1) hcl'
        refine ⟨c, ?_, by omega, by omega, fun _ => by omega⟩
        rw [hstep, if_pos hlt]
        exact hrun
      · exact ⟨count, by rw [hstep, if_neg hlt], le_refl _, by omega,
          fun h' => absurd h' hlt⟩

/-- Helper: `run_sketch(draw, seconds, delay)` with a nonnegative delay and
positive duration resets the frame count to 0 (the result is independent
of any previous frame count), and — for an abstract wall clock whose `K`-th
loop check has passed `start + seconds` — terminates within `K` checks
with a final frame count of at most `K - 1`, and with at least one frame
drawn when the first loop check still lies inside the duration. -/
theorem run_sketch_termination (clock : ℕ → ℚ) (seconds delayMs : ℚ) (prev K : ℕ)
    (hdelay : 0 ≤ delayMs) (_hsec : 0 < seconds) (hK1 : 1 ≤ K)
    (hK : clock 0 + seconds ≤ clock K)
    (hfirst : clock 1 < clock 0 + seconds) :
    ∃ c, runSketch clock seconds delayMs prev K = Except.ok (some c) ∧
      1 ≤ c ∧ c ≤ K - 1 ∧
      runSketch clock seconds delayMs prev K =
        runSketch clock seconds delayMs 0 K := by
  have hne : ¬ delayMs < 0 := not_lt.mpr hdelay
  have hcl : clock 0 + seconds ≤ clock (1 + (K - 1)) := by
    have harith : 1 + (K - 1) = K := by omega
    rw [harith]
    exact hK
  obtain ⟨c, hrun, _, hub, hge1⟩ :=
    runLoop_spec clock (clock 0 + seconds) (K - 1) 1 0 hcl
  have hrunK : runLoop clock (clock 0 + seconds) 1 0 K = some c := by
    rw [show K = K - 1 + 1 by omega]
    exact hrun
  refine ⟨c, ?_, ?_, by omega, rfl⟩
  · rw [runSketch, if_neg hne, hrunK]
  · have := hge1 hfirst
    omega

/-- Helper: `run_sketch` termination at the concrete clock `clock k = k`,
duration 2.5 and delay 0: the run returns a frame count `c` with
`1 ≤ c ≤ 2`, all hypotheses discharged concretely. -/
theorem run_sketch_termination_concrete :
    (0 : ℚ) ≤ 0 ∧ (0 : ℚ) < 5 / 2 ∧ (1 : ℕ) ≤ 3 ∧
    ((fun k : ℕ => (k : ℚ)) 0 + 5 / 2 ≤ (fun k : ℕ => (k : ℚ)) 3) ∧
    ((fun k : ℕ => (k : ℚ)) 1 < (fun k : ℕ => (k : ℚ)) 0 + 5 / 2) ∧
    ∃ c, runSketch (fun k : ℕ => (k : ℚ)) (5 / 2) 0 7 3 = Except.ok (some c) ∧
      1 ≤ c ∧ c ≤ 2 := by
  refine ⟨le_refl 0, by norm_num, by norm_num, by norm_num, by norm_num, ?_⟩
  obtain ⟨c, h1, h2, h3, _⟩ :=
    run_sketch_termination (fun k : ℕ => (k : ℚ)) (5 / 2) 0 7 3 (le_refl 0)
      (by norm_num) (by norm_num) (by norm_num) (by norm_num)
  exact ⟨c, h1, h2, h3⟩

/-- Helper: the untimed `jupy5` loop never exits on its own, whatever the
clock does and however much fuel it is given. -/
theorem jupy5Loop_untimed (clock : ℕ → ℚ) (startTime duration : ℚ) :
    ∀ (fuel k count : ℕ),
      jupy5Loop clock startTime duration false k count fuel = none := by
  intro fuel
  induction fuel with
  | zero => intro k count; rfl
  | succ fuel ih =>
      intro k count
      have hstep : jupy5Loop clock startTime duration false k count (fuel + 1) =
          if (false : Bool) = true ∧ startTime + duration < clock k then
            some (count + 1)
          else jupy5Loop clock startTime duration false (k + 1) (count + 1) fuel :=
        rfl
      rw [hstep, if_neg (by simp)]
      exact ih (k + 1) (count + 1)

/-- Helper: the timed `jupy5` loop exits within the fuel once a clock
sample has passed `startTime + duration`, with final count between
`count + 1` (the increment precedes the check) and `count + fuel + 1`. -/
theorem jupy5Loop_timed (clock : ℕ → ℚ) (startTime duration : ℚ) :
    ∀ (fuel k count : ℕ), startTime + duration < clock (k + fuel) →
      ∃ c, jupy5Loop clock startTime duration true k count (fuel + 1) = some c ∧
        count + 1 ≤ c ∧ c ≤ count + fuel + 1 := by
  intro fuel
  induction fuel with
  | zero =>
      intro k count hcl
      rw [Nat.add_zero] at hcl
      have hstep : jupy5Loop clock startTime duration true k count 1 =
          if (true : Bool) = true ∧ startTime + duration < clock k then
            some (count + 1)
          else jupy5Loop clock startTime duration true (k + 1) (count + 1) 0 := rfl
      exact ⟨count + 1, by rw [hstep, if_pos ⟨rfl, hcl⟩], le_refl _, by omega⟩
  | succ fuel ih =>
      intro k count hcl
      have hstep : jupy5Loop clock startTime duration true k count (fuel + 1 + 1) =
          if (true : Bool) = true ∧ startTime + duration < clock k then
            some (count + 1)
          else jupy5Loop clock startTime duration true (k + 1) (count + 1) (fuel + 1) :=
        rfl
      by_cases hlt : startTime + duration < clock k
      · exact ⟨count + 1, by rw [hstep, if_pos ⟨rfl, hlt⟩], le_refl _, by omega⟩
      · have hcl' : startTime + duration < clock (k + 1 + fuel) := by
          have harith : k + 1 + fuel = k + (fuel + 1) := by omega
          rw [harith]
          exact hcl
        obtain ⟨c, hrun, hle, hub⟩ := ih (k + 1) (count + 1) hcl'
        refine ⟨c, ?_, by omega, by omega⟩
        rw [hstep, if_neg (by simp [hlt])]
        exact hrun

/-- C10 counterexample: `jupy5`'s `draw(callback, 0.001)` — the claim's
own example duration, a float — fails the `type(args[1]) == int` check, so
the loop is untimed: on the clock `clock k = k` the elapsed wall time has
exceeded 0.001 at every check, yet after 5 frames the loop still has not
returned to the idle state (and by `jupy5Loop_untimed` it never does). -/
theorem jupy5_draw_untimed_ce :
    (1 : ℚ) / 1000 < (fun k : ℕ => (k : ℚ)) 5 - (fun k : ℕ => (k : ℚ)) 0 ∧
    jupy5Draw (fun k : ℕ => (k : ℚ)) (some (PyNum.float (1 / 1000))) 0 0 false 5 =
      none := by
  constructor
  · norm_num
  · exact jupy5Loop_untimed _ _ _ 5 1 0

/-- C10 (amended): for ipycc's `run_sketch` the claim holds — the frame
count is reset to 0 (independent of any previous count), the loop
terminates within `K` checks once the abstract wall clock's `K`-th sample
has passed `start + seconds` (final count at most `K - 1`), and at least
one frame is drawn when the first check still lies inside the duration.
In the `jupy5` variant the duration only takes effect when its runtime
type is `int`: with an integer duration the loop (also started from a
reset count) increments the frame count before the duration check, so it
returns to idle within `K` checks with a final count between 1 and `K`;
with a non-integer duration — including the claim's 0.001 — the loop is
untimed and never returns to idle on its own. -/
theorem animation_loop_amended (clock : ℕ → ℚ) (seconds delayMs : ℚ) (prev K : ℕ)
    (hdelay : 0 ≤ delayMs) (hsec : 0 < seconds) (hK1 : 1 ≤ K)
    (hK : clock 0 + seconds ≤ clock K)
    (hfirst : clock 1 < clock 0 + seconds) :
    (∃ c, runSketch clock seconds delayMs prev K = Except.ok (some c) ∧
      1 ≤ c ∧ c ≤ K - 1 ∧
      runSketch clock seconds delayMs prev K =
        runSketch clock seconds delayMs 0 K) ∧
    (∀ n : ℤ, clock 0 + (n : ℚ) < clock K →
      (∀ (ps : ℚ) (pc : ℕ),
        jupy5Draw clock (some (PyNum.int n)) ps pc false K =
          jupy5Draw clock (some (PyNum.int n)) 0 0 false K) ∧
      ∃ c, jupy5Draw clock (some (PyNum.int n)) 0 0 false K = some c ∧
        1 ≤ c ∧ c ≤ K) ∧
    (∀ (q : ℚ) (fuel : ℕ),
      jupy5Draw clock (some (PyNum.float q)) 0 0 false fuel = none) := by
  refine ⟨run_sketch_termination clock seconds delayMs prev K hdelay hsec hK1 hK
    hfirst, fun n hn => ⟨fun ps pc => rfl, ?_⟩, fun q fuel =>
    jupy5Loop_untimed clock (clock 0) q fuel 1 0⟩
  have hcl : clock 0 + (n : ℚ) < clock (1 + (K - 1)) := by
    have harith : 1 + (K - 1) = K := by omega
    rw [harith]
    exact hn
  obtain ⟨c, hrun, hge, hub⟩ :=
    jupy5Loop_timed clock (clock 0) (n : ℚ) (K - 1) 1 0 hcl
  have hrunK : jupy5Loop clock (clock 0) (n : ℚ) true 1 0 K = some c := by
    rw [show K = K - 1 + 1 by omega]
    exact hrun
  exact ⟨c, hrunK, by omega, by omega⟩

/-- C10 witness: the amended statement at the concrete clock `clock k = k`,
`run_sketch` duration 2.5 with delay 0 and `jupy5` integer duration 2,
fuel 3: both loops return with a frame count in the stated bounds, all
hypotheses discharged concretely. -/
theorem animation_loop_amended_witness :
    (0 : ℚ) ≤ 0 ∧ (0 : ℚ) < 5 / 2 ∧ (1 : ℕ) ≤ 3 ∧
    ((fun k : ℕ => (k : ℚ)) 0 + 5 / 2 ≤ (fun k : ℕ => (k : ℚ)) 3) ∧
    ((fun k : ℕ => (k : ℚ)) 1 < (fun k : ℕ => (k : ℚ)) 0 + 5 / 2) ∧
    ((fun k : ℕ => (k : ℚ)) 0 + ((2 : ℤ) : ℚ) < (fun k : ℕ => (k : ℚ)) 3) ∧
    (∃ c, runSketch (fun k : ℕ => (k : ℚ)) (5 / 2) 0 7 3 = Except.ok (some c) ∧
      1 ≤ c ∧ c ≤ 2) ∧
    (∃ c, jupy5Draw (fun k : ℕ => (k : ℚ)) (some (PyNum.int 2)) 0 0 false 3 =
      some c ∧ 1 ≤ c ∧ c ≤ 3) := by
  obtain ⟨ha, hb, _⟩ :=
    animation_loop_amended (fun k : ℕ => (k : ℚ)) (5 / 2) 0 7 3 (le_refl 0)
      (by norm_num) (by norm_num) (by norm_num) (by norm_num)
  obtain ⟨c, h1, h2, h3, _⟩ := ha
  obtain ⟨_, hc⟩ := hb 2 (by norm_num)
  exact ⟨le_refl 0, by norm_num, by norm_num, by norm_num, by norm_num,
    by norm_num, ⟨c, h1, h2, h3⟩, hc⟩

end Ipycc
